import Mathlib

/-!
# Verification of `capital_annualization_script.py` (repo `clg-admin/relac_tx`)

A shallow embedding, in Lean 4, of the capital-investment annualization engine
in `src/t1_confection/capital_annualization_script.py`, together with theorems
settling the frozen claims C1–C10 about that code.

Modelling conventions:
* pandas cells are `Option Val` where `Val` is a rational number or a string;
  `none` models NaN/missing.
* Python `float` arithmetic is modelled exactly over `ℚ`.
* A DataFrame is a `Table`: a list of column names plus a list of rows, each
  row a list of cells positionally aligned with the column names.
* Fallible steps of `annualize_capital_investment` (ZeroDivisionError inside
  `calculate_crf`, missing-column ValueError/KeyError) are modelled with
  `Except String`.
* File I/O, CSV parsing and console printing are not modelled; the embedding
  covers the computational pipeline (CRF → grouping → distribution → rounding).
-/

namespace CapitalAnnualization

/-- A (non-null) pandas cell value: a number (Python float/int, modelled
exactly as a rational) or a string (categorical key columns). -/
inductive Val where
  | num (q : ℚ)
  | str (s : String)
deriving DecidableEq

/-- A pandas cell; `none` models NaN / missing. -/
abbrev Cell := Option Val

/-- A DataFrame: column names plus rows of cells, positionally aligned. -/
structure Table where
  cols : List String
  rows : List (List Cell)
deriving DecidableEq

/-- Well-formedness: each row has exactly one cell per column. -/
def Table.Wf (t : Table) : Prop :=
  ∀ row ∈ t.rows, row.length = t.cols.length

instance (t : Table) : Decidable t.Wf := by unfold Table.Wf; infer_instance

/-- Module constant `CAPITAL_COLUMN` (line 41 of the source). -/
def CAPITAL_COLUMN : String := "CapitalInvestment"

/-- Module constant `NEW_COLUMN_NAME` (line 42 of the source). -/
def NEW_COLUMN_NAME : String := "CapitalInvestmentAnnualized"

/-- Module constant `ASSET_LIFETIME` (line 35 of the source). -/
def ASSET_LIFETIME : ℤ := 15

/-- Module constant `DISCOUNT_RATE` (line 34 of the source). -/
def DISCOUNT_RATE : ℚ := 639 / 10000

/-- Module constant `GROUPING_COLUMNS` (lines 46–50 of the source). -/
def GROUPING_COLUMNS : List String :=
  ["Future", "Scenario", "REGION", "TECHNOLOGY", "FUEL",
   "EMISSION", "MODE_OF_OPERATION", "TIMESLICE", "STORAGE",
   "SEASON", "DAYTYPE", "DAILYTIMEBRACKET"]

/-- The `primary_grouping` list of `identify_effective_grouping_columns`
(line 196), which coincides with the `default_cols` fallback list of
`calculate_annualized_investment` (line 244). -/
def primaryGrouping : List String := ["Future", "Scenario", "REGION", "TECHNOLOGY"]

/-- `calculate_crf` (lines 56–94).  Python float division by `0.0` raises
`ZeroDivisionError`, and `0.0 ** n` with negative `n` raises it too, so the
model returns `Except`.  Exact rational arithmetic models the float formula;
`lifetime` is an `ℤ` because a Python `int` may be negative and the source
never validates it. -/
def calculate_crf (discount_rate : ℚ) (lifetime : ℤ) : Except String ℚ :=
  if discount_rate = 0 then
    if lifetime = 0 then .error "ZeroDivisionError" else .ok (1 / (lifetime : ℚ))
  else
    if 1 + discount_rate = 0 ∧ lifetime < 0 then .error "ZeroDivisionError"
    else
      let p := (1 + discount_rate) ^ lifetime
      if p - 1 = 0 then .error "ZeroDivisionError"
      else .ok (discount_rate * p / (p - 1))

/-- Python `int(x)` for a float `x`: truncation toward zero. -/
def ratTrunc (q : ℚ) : ℤ := if 0 ≤ q then ⌊q⌋ else ⌈q⌉

/-- Read a YEAR cell as the integer the code uses (`int(year)`); non-numeric
or missing cells give `none` (NaN years are filtered out by the code). -/
def yearOfCell (c : Cell) : Option ℤ :=
  match c with
  | some (Val.num q) => some (ratTrunc q)
  | _ => none

/-- Read a capital-investment cell as a rational; `none` models NaN. -/
def capOfCell (c : Cell) : Option ℚ :=
  match c with
  | some (Val.num q) => some q
  | _ => none

/-- `range(a, b)` over the integers: `[a, a+1, …, b−1]`. -/
def intRange (a b : ℤ) : List ℤ :=
  (List.range (b - a).toNat).map (fun k : ℕ => a + (k : ℤ))

/-- `annualized_values[i] += x` (line 335): bump position `i` of an
accumulator list. -/
def addAt (l : List ℚ) (i : ℕ) (x : ℚ) : List ℚ :=
  l.set i (l.getD i 0 + x)

/-- The `year_to_idx` dictionary (lines 290–293): built by forward iteration,
so a later occurrence of the same year overwrites an earlier one. -/
def yearToIdx (years : List ℤ) (y : ℤ) : Option ℕ :=
  years.enum.foldl (fun acc p => if p.2 = y then some p.1 else acc) none

/-- The inner payment loop (lines 330–335): distribute one annual payment over
the given window of payment years, bumping the accumulator at the index of
each payment year that is present in the group's year set. -/
def distributeOne (years : List ℤ) (payment : ℚ) (window : List ℤ)
    (acc : List ℚ) : List ℚ :=
  window.foldl (fun a py =>
    match yearToIdx years py with
    | some j => addAt a j payment
    | none => a) acc

/-- The outer investment loop (lines 324–335): for each record (in sorted
order) with positive cleaned investment, distribute `investment * crf` over
`range(int(year), min(int(year) + lifetime, int(years[-1]) + 1))`.
In the source the lifetime is the module global `ASSET_LIFETIME`; it is a
parameter here so that the group-level claims can speak about it. -/
def distributeAll (crf : ℚ) (lifetime : ℤ) (years : List ℤ)
    (capsClean : List ℚ) (lastYear : ℤ) : List ℚ :=
  (years.zip capsClean).foldl (fun acc yc =>
    if 0 < yc.2 then
      distributeOne years (yc.2 * crf) (intRange yc.1 (min (yc.1 + lifetime) (lastYear + 1))) acc
    else acc)
    (List.replicate years.length 0)

/-- The sort key used to model `group_df.sort_values('YEAR')` on the
(original-position, record) pairs of a group. -/
def recKey (p : ℕ × (Option ℤ × Option ℚ)) : ℤ := p.2.1.getD 0

/-- Comparison used to model `group_df.sort_values('YEAR')`.  pandas' default
quicksort is not stable on ties; insertion sort is one fixed tie-break (the
claims about the sorted result are only stated for groups with
pairwise-distinct years, where the tie-break is irrelevant). -/
def leYear (a b : ℕ × (Option ℤ × Option ℚ)) : Prop := recKey a ≤ recKey b

instance : DecidableRel leYear := fun a b => by unfold leYear; infer_instance

instance : IsTotal (ℕ × (Option ℤ × Option ℚ)) leYear :=
  ⟨fun a b => le_total (recKey a) (recKey b)⟩

instance : IsTrans (ℕ × (Option ℤ × Option ℚ)) leYear :=
  ⟨fun _ _ _ hab hbc => le_trans hab hbc⟩

/-- The (position, record) pairs of a group that survive the NaN-YEAR filter
of lines 282–287.  The source filters after sorting; since pandas sorts NaN
last, filtering before sorting keeps the same elements in the same relative
order. -/
def validOf (records : List (Option ℤ × Option ℚ)) :
    List (ℕ × (Option ℤ × Option ℚ)) :=
  records.enum.filter (fun p => p.2.1.isSome)

/-- The group's kept records sorted by YEAR (`sort_values('YEAR')`,
line 274). -/
def sortedOf (records : List (Option ℤ × Option ℚ)) :
    List (ℕ × (Option ℤ × Option ℚ)) :=
  (validOf records).insertionSort leYear

/-- The `years` array of the group body (line 278, after the filter). -/
def yearsOf (records : List (Option ℤ × Option ℚ)) : List ℤ :=
  (sortedOf records).map (fun p => p.2.1.getD 0)

/-- The `capital_investments` array of the group body (line 279, after the
filter). -/
def capsOf (records : List (Option ℤ × Option ℚ)) : List (Option ℚ) :=
  (sortedOf records).map (fun p => p.2.2)

/-- The `annualized_values` array (lines 296–335): all-NaN when every kept
capital value is NaN, otherwise the accumulated payments with NaN coerced
to 0. -/
def annualizedOf (crf : ℚ) (lifetime : ℤ)
    (records : List (Option ℤ × Option ℚ)) : List (Option ℚ) :=
  if (capsOf records).all (fun c => c.isNone) then
    List.replicate (yearsOf records).length none
  else
    (distributeAll crf lifetime (yearsOf records)
      ((capsOf records).map (fun c => c.getD 0))
      ((yearsOf records).getLastD 0)).map some

/-- The per-group body of `calculate_annualized_investment` (lines 265–345),
acting on one group's records in original row order.  Each record is a pair
(YEAR as `Option ℤ`, capital investment as `Option ℚ`).  Returns, for each
record of the group in order, the value written to the new column: `some v`
for a number, `none` for NaN.  Values are written back by sorted position
onto an accumulator initialized with 0.0 (line 234 initializes the new
column to 0.0, lines 343–345 write); positions dropped by the NaN-YEAR
filter keep the initial 0.0. -/
def processGroup (crf : ℚ) (lifetime : ℤ)
    (records : List (Option ℤ × Option ℚ)) : List (Option ℚ) :=
  ((sortedOf records).map (fun p => p.1)).zip (annualizedOf crf lifetime records)
    |>.foldl (fun acc pv => acc.set pv.1 pv.2)
      (List.replicate records.length (some (0 : ℚ)))

/-- Position of a column name in a table's header; `t.cols.length` when the
column is absent (the theorems below only read existing columns — pandas
would raise `KeyError` on a genuinely missing one). -/
def idxOfCol (t : Table) (c : String) : ℕ :=
  t.cols.findIdx (fun c0 => c0 = c)

/-- Read the cell of a row at a column position; out-of-range reads give
`none`. -/
def getCell (row : List Cell) (i : ℕ) : Cell :=
  row.getD i none

/-- The values of a named column, row by row (`df[c]`). -/
def getColVals (t : Table) (c : String) : List Cell :=
  t.rows.map (fun row => getCell row (idxOfCol t c))

/-- `df[c] = vals`: overwrite the column if it exists, else append it on the
right (pandas column assignment). -/
def setColumn (t : Table) (c : String) (vals : List Cell) : Table :=
  if c ∈ t.cols then
    Table.mk t.cols (t.rows.zipWith (fun row v => row.set (idxOfCol t c) v) vals)
  else
    Table.mk (t.cols ++ [c]) (t.rows.zipWith (fun row v => row ++ [v]) vals)

/-- `df.loc[p, column i] = v`: a single-cell write. -/
def setCell (t : Table) (p : ℕ) (i : ℕ) (v : Cell) : Table :=
  Table.mk t.cols (t.rows.set p ((t.rows.getD p []).set i v))

/-- The mask `(df[CAPITAL_COLUMN] > 0) & (~df[CAPITAL_COLUMN].isna())`
(line 158); `NaN > 0` is already false in pandas, so the conjunct with
`isna` adds nothing. -/
def capMask (t : Table) (row : List Cell) : Bool :=
  match getCell row (idxOfCol t CAPITAL_COLUMN) with
  | some (Val.num q) => decide (0 < q)
  | _ => false

/-- The per-column test of the loop at lines 171–192: a candidate column is
kept when it exists in the table, has at least one non-null value among the
rows where `CapitalInvestment > 0`, and its distinct values there are not
exactly `{0}`. -/
def colEffective (t : Table) (capRows : List (List Cell)) (c : String) : Bool :=
  if c ∈ t.cols then
    let nonNull := (capRows.map (fun row => getCell row (idxOfCol t c))).filterMap id
    if nonNull.isEmpty then false
    else decide (¬ nonNull.dedup = [Val.num 0])
  else false

/-- The `effective_columns` list accumulated by the loop at lines 167–192. -/
def effectiveColumnsOf (t : Table) (potential : List String) : List String :=
  potential.filter (colEffective t (t.rows.filter (capMask t)))

/-- `identify_effective_grouping_columns` (lines 132–203). -/
def identify_effective_grouping_columns (t : Table) (potential : List String) :
    List String :=
  let capRows := t.rows.filter (capMask t)
  if capRows.isEmpty then
    if "TECHNOLOGY" ∈ t.cols ∧ "REGION" ∈ t.cols then ["TECHNOLOGY", "REGION"] else []
  else
    let eff := effectiveColumnsOf t potential
    let avail := primaryGrouping.filter (fun c => decide (c ∈ eff))
    if avail.isEmpty then eff else avail

/-- The grouping key of a row: its cells at the effective grouping columns. -/
def keyOf (row : List Cell) (keyIdxs : List ℕ) : List Cell :=
  keyIdxs.map (getCell row)

/-- `df.groupby(cols)` as a list of groups of row positions.  pandas drops
rows with a NaN in any key column (`dropna=True` default) and iterates groups
in sorted-key order; the model lists groups in first-occurrence order, which
yields the same final table because distinct groups touch disjoint rows. -/
def groupRows (t : Table) (keyIdxs : List ℕ) : List (List ℕ) :=
  let idxs := List.range t.rows.length
  let validIdxs := idxs.filter (fun p => (keyOf (t.rows.getD p []) keyIdxs).all (fun c => c.isSome))
  let keys := (validIdxs.map (fun p => keyOf (t.rows.getD p []) keyIdxs)).dedup
  keys.map (fun k => validIdxs.filter (fun p => decide (keyOf (t.rows.getD p []) keyIdxs = k)))

/-- A group's per-record result turned back into a cell for the new column. -/
def cellOfOut (o : Option ℚ) : Cell :=
  match o with
  | some v => some (Val.num v)
  | none => none

/-- The write-back loop (lines 343–345) for one group: write each record's
value into the new column's position of its row. -/
def applyGroupWrites (newIdx : ℕ) (acc : Table) (pairs : List (ℕ × Cell)) : Table :=
  pairs.foldl (fun a pv => setCell a pv.1 newIdx pv.2) acc

/-- `df_result` right after initialization (lines 230–234): a copy of the
input with the new column set to 0.0 on every row. -/
def df0Of (t : Table) : Table :=
  setColumn t NEW_COLUMN_NAME (List.replicate t.rows.length (some (Val.num 0)))

/-- `calculate_annualized_investment` (lines 206–374).  Note the source reads
the years and investments and distributes payments using the module globals
`CAPITAL_COLUMN`, `NEW_COLUMN_NAME` and `ASSET_LIFETIME`, not caller
parameters: only `crf` and the grouping candidates are inputs.  Reading the
records from `df0` (the copy with the zero-initialized new column) matches
the source, which groups `df_result` and never reads the written column. -/
def calculate_annualized_investment (t : Table) (crf : ℚ)
    (grouping_cols : List String) : Table :=
  let df0 := df0Of t
  let eff0 := identify_effective_grouping_columns t grouping_cols
  let eff := if eff0.isEmpty then primaryGrouping.filter (fun c => decide (c ∈ t.cols)) else eff0
  if eff.isEmpty then df0
  else
    let keyIdxs := eff.map (idxOfCol df0)
    let newIdx := idxOfCol df0 NEW_COLUMN_NAME
    let yearIdx := idxOfCol df0 "YEAR"
    let capIdx := idxOfCol df0 CAPITAL_COLUMN
    (groupRows df0 keyIdxs).foldl (fun acc grp =>
      let recs := grp.map (fun p =>
        let row := df0.rows.getD p []
        (yearOfCell (getCell row yearIdx), capOfCell (getCell row capIdx)))
      let outs := processGroup crf ASSET_LIFETIME recs
      applyGroupWrites newIdx acc ((grp.zip outs).map (fun pv => (pv.1, cellOfOut pv.2))))
      df0

/-- Multiplicity of the factor `p` in `n` (fuel-based recursion on `n`). -/
def countFactorAux : ℕ → ℕ → ℕ → ℕ
  | 0, _, _ => 0
  | fuel + 1, p, n => if 2 ≤ p ∧ 2 ≤ n ∧ n % p = 0 then countFactorAux fuel p (n / p) + 1 else 0

/-- Multiplicity of the factor `p` in `n`. -/
def countFactor (p n : ℕ) : ℕ := countFactorAux n p n

/-- Decimal places of one value.  `get_decimal_places` (lines 100–129) counts
the digits after the decimal point of `str(value)` with trailing zeros
stripped; for a value whose reduced denominator is `2^a * 5^b` — every float
that Python prints positionally, in particular every finite-decimal CSV entry
— that count is the least `d` with `value * 10^d` integral, i.e. `max a b`.
(The source mis-counts values printed in scientific notation; such values are
outside this model and outside every claim.) -/
def decimalPlacesOfRat (q : ℚ) : ℕ :=
  max (countFactor 2 q.den) (countFactor 5 q.den)

/-- `get_decimal_places` on a column: the maximum over the non-null numeric
values, 0 when there are none. -/
def get_decimal_places (cells : List Cell) : ℕ :=
  cells.foldl (fun m c =>
    match c with
    | some (Val.num q) => max m (decimalPlacesOfRat q)
    | _ => m) 0

/-- `x` has at most `d` decimal places: `x * 10^d` is an integer. -/
def hasAtMostDecimals (d : ℕ) (q : ℚ) : Prop := (q * 10 ^ d).den = 1

instance (d : ℕ) (q : ℚ) : Decidable (hasAtMostDecimals d q) := by
  unfold hasAtMostDecimals; infer_instance

/-- Rounding helper: round-half-to-even on a rational, the tie rule used by
`numpy`/pandas `.round` (and by Python's `round`). -/
def roundHalfEven (q : ℚ) : ℤ :=
  let f := ⌊q⌋
  if q - f < 1 / 2 then f
  else if 1 / 2 < q - f then f + 1
  else if f % 2 = 0 then f else f + 1

/-- `Series.round(d)` on one cell: NaN stays NaN, non-numeric cells are left
alone (the rounded column is numeric in every claim). -/
def roundCell (d : ℕ) (c : Cell) : Cell :=
  match c with
  | some (Val.num q) => some (Val.num ((roundHalfEven (q * 10 ^ d) : ℚ) / 10 ^ d))
  | other => other

/-- `annualize_capital_investment` (lines 454–634) minus file I/O and
printing: CRF computation (step 2, before any table validation), required
column validation (lines 560–570), the core computation (step 5), and the
conditional precision-matching rounding (step 6, lines 605–609).  The caller
parameters `capital_column` and `new_column_name` are used exactly where the
source uses them: validation, decimal-place measurement and rounding — the
core computation itself uses the module globals. -/
def annualize_capital_investment (discount_rate : ℚ) (asset_lifetime : ℤ)
    (capital_column new_column_name : String) (grouping_columns : List String)
    (t : Table) : Except String Table :=
  match calculate_crf discount_rate asset_lifetime with
  | .error e => .error e
  | .ok crf =>
    if capital_column ∉ t.cols then
      .error "ValueError: capital column not found"
    else if "YEAR" ∉ t.cols then
      .error "ValueError: YEAR column not found"
    else
      let df_result := calculate_annualized_investment t crf grouping_columns
      let decimal_places := get_decimal_places (getColVals t capital_column)
      if 0 < decimal_places then
        if new_column_name ∉ df_result.cols then
          .error "KeyError: new column not found"
        else
          .ok (setColumn df_result new_column_name
            ((getColVals df_result new_column_name).map (roundCell decimal_places)))
      else
        .ok df_result

/-- The new column of a successful run, `[]` on error (used to state claims
about `annualize_capital_investment` without binding the result table). -/
def okVals (e : Except String Table) : List Cell :=
  match e with
  | .ok u => getColVals u NEW_COLUMN_NAME
  | .error _ => []

/-- The amortized value claim C1 predicts at year `y` of a group: the sum of
`investment * crf` over exactly those records whose capital investment is
positive and whose amortization window `[Y, Y + L − 1]` contains `y`. -/
def claimWindowSum (crf : ℚ) (lifetime : ℤ)
    (records : List (Option ℤ × Option ℚ)) (y : ℤ) : ℚ :=
  (records.filterMap (fun r =>
    match r with
    | (some yr, some v) =>
        if 0 < v ∧ yr ≤ y ∧ y < yr + lifetime then some (v * crf) else none
    | _ => none)).sum

/-- Shorthand for a numeric cell in the concrete fixtures below. -/
def nm (q : ℚ) : Cell := some (Val.num q)

/-- Shorthand for a string cell in the concrete fixtures below. -/
def st (s : String) : Cell := some (Val.str s)

/-- Fixture: one group (one region/technology), years 2020–2023, a single
investment of 1 at 2020, NaN elsewhere. -/
def tbl4 : Table := Table.mk ["REGION", "TECHNOLOGY", "YEAR", "CapitalInvestment"]
  [[st "BR", st "PV", nm 2020, nm 1],
   [st "BR", st "PV", nm 2021, none],
   [st "BR", st "PV", nm 2022, none],
   [st "BR", st "PV", nm 2023, none]]

/-- Fixture: a table whose effective grouping columns are REGION and FUEL
while Future/Scenario/TECHNOLOGY are absent. -/
def tbl6 : Table := Table.mk ["REGION", "FUEL", "YEAR", "CapitalInvestment"]
  [[st "BR", st "GAS", nm 2020, nm 5]]

/-- Fixture: a table in which the whole canonical grouping set
Future/Scenario/REGION/TECHNOLOGY is effective. -/
def tbl6w : Table := Table.mk
  ["Future", "Scenario", "REGION", "TECHNOLOGY", "YEAR", "CapitalInvestment"]
  [[st "F1", st "BAU", st "BR", st "PV", nm 2020, nm 5]]

/-- Fixture: a table that already contains the
`CapitalInvestmentAnnualized` column (value 99). -/
def tbl8 : Table := Table.mk ["YEAR", "CapitalInvestment", "CapitalInvestmentAnnualized"]
  [[nm 2020, nm 1, nm 99]]

/-- Fixture: no grouping column at all (neither candidates nor the default
four), no positive investment. -/
def tbl9 : Table := Table.mk ["YEAR", "CapitalInvestment"]
  [[nm 2020, none], [nm 2021, nm 0]]

/-- Fixture: integer-valued investment column (0 observed decimal places). -/
def tbl5a : Table := Table.mk ["REGION", "TECHNOLOGY", "YEAR", "CapitalInvestment"]
  [[st "BR", st "PV", nm 2020, nm 1]]

/-- Fixture: investment column with 1 observed decimal place. -/
def tbl5b : Table := Table.mk ["REGION", "TECHNOLOGY", "YEAR", "CapitalInvestment"]
  [[st "BR", st "PV", nm 2020, nm (1 / 2)]]

/-- Fixture group: a positive investment on a record with missing YEAR next
to a missing investment on a record with a YEAR. -/
def recsNullYear : List (Option ℤ × Option ℚ) := [(none, some 5), (some 2020, none)]

/-- Fixture group: two records sharing the year 2020. -/
def recsDupYear : List (Option ℤ × Option ℚ) := [(some 2020, some 2), (some 2020, some 4)]

/-- Fixture group: distinct years 2020–2022, investments 2 and 4 with a NaN
between. -/
def recsMain : List (Option ℤ × Option ℚ) :=
  [(some 2020, some 2), (some 2021, none), (some 2022, some 4)]

/-- Fixture group: every investment missing (years all present). -/
def recsAllNaN : List (Option ℤ × Option ℚ) := [(some 2020, none), (some 2021, none)]

/-- Fixture group: all investments missing, one record with missing YEAR. -/
def recsNullBoth : List (Option ℤ × Option ℚ) := [(none, none), (some 2020, none)]

/-! ## Theorems -/

unseal Rat.add Rat.mul Rat.inv Rat.sub

/-- Claim C2: `calculate_crf` is a pure function of `(discount_rate,
lifetime)`; for every lifetime `n > 0`, `crf 0 n = 1/n`, and for every
`r > 0` and `n > 0`, `crf r n = r·(1+r)^n / ((1+r)^n − 1)`. -/
theorem calculate_crf_spec (r : ℚ) (n : ℤ) (hn : 0 < n) :
    calculate_crf 0 n = .ok (1 / (n : ℚ)) ∧
    (0 < r →
      calculate_crf r n = .ok (r * (1 + r) ^ n / ((1 + r) ^ n - 1))) := by
  constructor
  · unfold calculate_crf
    simp [hn.ne']
  · intro hr
    have h1 : ¬ r = 0 := ne_of_gt hr
    have h2 : ¬ (1 + r = 0 ∧ n < 0) := fun hc => by linarith [hc.1]
    have hp : 1 < (1 + r) ^ n := one_lt_zpow₀ (by linarith) hn
    have h3 : ¬ ((1 + r) ^ n - 1 = 0) := by
      intro h
      have : (1 + r) ^ n = 1 := by linarith
      exact absurd this (ne_of_gt hp)
    unfold calculate_crf
    simp [h1, h2, h3]

/-- Witness for C2 at `r = 1`, `n = 2` (crf = 4/3). -/
theorem calculate_crf_spec_witness :
    (0 : ℤ) < 2 ∧
    (calculate_crf 0 2 = .ok (1 / ((2 : ℤ) : ℚ)) ∧
      (0 < (1 : ℚ) →
        calculate_crf 1 2 = .ok (1 * (1 + 1) ^ (2 : ℤ) / ((1 + 1) ^ (2 : ℤ) - 1)))) :=
  ⟨by decide, calculate_crf_spec 1 2 (by decide)⟩

/-- Claim C4 (code bug): the caller-supplied `asset_lifetime` is honoured in
the CRF (here `r = 0`, lifetime 2 gives crf `1/2`) but not in the
amortization window: `calculate_annualized_investment` distributes over the
module global `ASSET_LIFETIME = 15` years, so with `asset_lifetime = 2` the
single 2020 investment still pays in 2022 and 2023 (values `1/2`), where the
claim requires 0. -/
theorem annualize_ignores_caller_lifetime :
    okVals (annualize_capital_investment 0 2 CAPITAL_COLUMN NEW_COLUMN_NAME
      GROUPING_COLUMNS tbl4) =
      [nm (1 / 2), nm (1 / 2), nm (1 / 2), nm (1 / 2)] := by decide

/-- Claim C7 (code bug): a run with negative `asset_lifetime = -5` (and
positive discount rate) is not rejected: it succeeds, producing a negative
annual payment on every year, instead of failing with an `InvalidParameter`
error before computation. -/
theorem annualize_accepts_nonpositive_lifetime :
    okVals (annualize_capital_investment (1 / 20) (-5) CAPITAL_COLUMN
      NEW_COLUMN_NAME GROUPING_COLUMNS tbl4) =
      [nm (-160000 / 884101), nm (-160000 / 884101),
       nm (-160000 / 884101), nm (-160000 / 884101)] := by decide

/-- Claim C1 counterexample.  Two groups refute the claim as stated:
(1) in `recsNullYear` not every investment is null (the record with missing
YEAR carries 5), yet the year-2020 record's output is NaN (`none`), not the
claimed numeric window sum (which is 0, no windowed positive investment);
(2) in `recsDupYear` two records share year 2020, and the first receives 0
while the claimed value at 2020 is the accumulated 3. -/
theorem processGroup_claim_counterexample :
    ((∃ r ∈ recsNullYear, r.2.isSome) ∧
      (processGroup (1 / 2) 15 recsNullYear)[1]? ≠
        some (some (claimWindowSum (1 / 2) 15 recsNullYear 2020))) ∧
    ((∃ r ∈ recsDupYear, r.2.isSome) ∧
      (processGroup (1 / 2) 15 recsDupYear)[0]? ≠
        some (some (claimWindowSum (1 / 2) 15 recsDupYear 2020))) := by decide

/-- Claim C3 counterexample: in the group `recsNullYear` one capital value is
numeric (on the record with missing YEAR), yet not every output is numeric —
the record with year 2020 gets NaN, because the all-null test of line 296
only sees the records that survive the YEAR filter of lines 282–287. -/
theorem processGroup_missingness_counterexample :
    (∃ r ∈ recsNullYear, r.2.isSome) ∧
    ¬ (∀ o ∈ processGroup (1 / 2) 15 recsNullYear, o.isSome) := by decide

/-- Claim C5 counterexample: the input column of `tbl5a` shows 0 decimal
places, so the rounding step (lines 607–609, guarded by
`decimal_places > 0`) is skipped and the output value `1/3` has more than 0
decimal places. -/
theorem rounding_skipped_counterexample :
    get_decimal_places (getColVals tbl5a CAPITAL_COLUMN) = 0 ∧
    okVals (annualize_capital_investment 0 3 CAPITAL_COLUMN NEW_COLUMN_NAME
      GROUPING_COLUMNS tbl5a) = [nm (1 / 3)] ∧
    ¬ hasAtMostDecimals 0 (1 / 3) := by decide

/-- Claim C6 counterexample: for `tbl6` the effective columns are
`[REGION, FUEL]` and the canonical set is not fully present (Future,
Scenario and TECHNOLOGY are missing), yet the function returns the
sublist `[REGION]` — not the full effective set as the claim requires. -/
theorem identify_partial_primary_counterexample :
    identify_effective_grouping_columns tbl6 GROUPING_COLUMNS = ["REGION"] ∧
    effectiveColumnsOf tbl6 GROUPING_COLUMNS = ["REGION", "FUEL"] ∧
    identify_effective_grouping_columns tbl6 GROUPING_COLUMNS ≠
      effectiveColumnsOf tbl6 GROUPING_COLUMNS := by decide

/-- Claim C8 counterexample: when the input table already contains a column
named `CapitalInvestmentAnnualized` (here with value 99), the result has no
additional column and the pre-existing column is overwritten. -/
theorem calc_overwrites_existing_column_counterexample :
    NEW_COLUMN_NAME ∈ tbl8.cols ∧
    (calculate_annualized_investment tbl8 (1 / 2) GROUPING_COLUMNS).cols = tbl8.cols ∧
    getColVals (calculate_annualized_investment tbl8 (1 / 2) GROUPING_COLUMNS)
      NEW_COLUMN_NAME ≠ getColVals tbl8 NEW_COLUMN_NAME := by decide

/-! ### Helper lemmas about the write-back fold -/

/-- Folding single-position writes preserves the length of the accumulator. -/
theorem foldl_set_length {α : Type} (pairs : List (ℕ × α)) (init : List α) :
    (pairs.foldl (fun acc pv => acc.set pv.1 pv.2) init).length = init.length := by
  induction pairs generalizing init with
  | nil => rfl
  | cons hd tl ih => simp [ih]

/-- A position never written keeps its initial value. -/
theorem foldl_set_not_mem {α : Type} (pairs : List (ℕ × α)) (init : List α)
    (p : ℕ) (hp : p ∉ pairs.map Prod.fst) :
    (pairs.foldl (fun acc pv => acc.set pv.1 pv.2) init)[p]? = init[p]? := by
  induction pairs generalizing init with
  | nil => rfl
  | cons hd tl ih =>
    simp only [List.map_cons, List.mem_cons, not_or] at hp
    simp only [List.foldl_cons]
    rw [ih _ hp.2, List.getElem?_set_ne (fun h => hp.1 h.symm)]

/-- If every written value is `v` and position `p` is written at least once,
the final value at `p` is `v`. -/
theorem foldl_set_const {α : Type} (pairs : List (ℕ × α)) (init : List α)
    (p : ℕ) (v : α) (hv : ∀ pr ∈ pairs, pr.2 = v)
    (hmem : p ∈ pairs.map Prod.fst) (hlen : p < init.length) :
    (pairs.foldl (fun acc pv => acc.set pv.1 pv.2) init)[p]? = some v := by
  induction pairs generalizing init with
  | nil => simp at hmem
  | cons hd tl ih =>
    simp only [List.foldl_cons]
    by_cases hmem' : p ∈ tl.map Prod.fst
    · exact ih _ (fun pr hpr => hv pr (List.mem_cons_of_mem _ hpr)) hmem'
        (by simpa using hlen)
    · have hphd : hd.1 = p := by
        simp only [List.map_cons, List.mem_cons] at hmem
        rcases hmem with h | h
        · exact h.symm
        · exact absurd h hmem'
      have hvhd : hd.2 = v := hv hd (List.mem_cons_self _ _)
      rw [foldl_set_not_mem _ _ _ hmem', hphd, hvhd,
        List.getElem?_set_self hlen]

/-! ### Helper lemmas about the group pipeline -/

theorem mem_validOf {records : List (Option ℤ × Option ℚ)}
    {pr : ℕ × (Option ℤ × Option ℚ)} :
    pr ∈ validOf records ↔ records[pr.1]? = some pr.2 ∧ pr.2.1.isSome := by
  unfold validOf
  rw [List.mem_filter, List.mem_enum_iff_getElem?]

theorem mem_sortedOf {records : List (Option ℤ × Option ℚ)}
    {pr : ℕ × (Option ℤ × Option ℚ)} :
    pr ∈ sortedOf records ↔ pr ∈ validOf records :=
  List.mem_insertionSort leYear

theorem mem_fst_sortedOf {records : List (Option ℤ × Option ℚ)} {p : ℕ} :
    p ∈ (sortedOf records).map Prod.fst ↔
      ∃ r, records[p]? = some r ∧ r.1.isSome := by
  rw [List.mem_map]
  constructor
  · rintro ⟨pr, hpr, rfl⟩
    exact ⟨pr.2, (mem_validOf.mp (mem_sortedOf.mp hpr)).1,
      (mem_validOf.mp (mem_sortedOf.mp hpr)).2⟩
  · rintro ⟨r, hr, hsome⟩
    exact ⟨(p, r), mem_sortedOf.mpr (mem_validOf.mpr ⟨hr, hsome⟩), rfl⟩

theorem addAt_length (l : List ℚ) (i : ℕ) (x : ℚ) :
    (addAt l i x).length = l.length := List.length_set ..

theorem distributeOne_length (years : List ℤ) (payment : ℚ) (window : List ℤ)
    (acc : List ℚ) : (distributeOne years payment window acc).length = acc.length := by
  induction window generalizing acc with
  | nil => rfl
  | cons h t ih =>
    unfold distributeOne at ih ⊢
    rw [List.foldl_cons]
    cases yearToIdx years h with
    | none => exact ih acc
    | some j => rw [ih (addAt acc j payment), addAt_length]

theorem distributeFold_length (crf : ℚ) (lifetime : ℤ) (years : List ℤ)
    (lastYear : ℤ) (pairs : List (ℤ × ℚ)) (acc : List ℚ) :
    (pairs.foldl (fun acc yc =>
      if 0 < yc.2 then
        distributeOne years (yc.2 * crf)
          (intRange yc.1 (min (yc.1 + lifetime) (lastYear + 1))) acc
      else acc) acc).length = acc.length := by
  induction pairs generalizing acc with
  | nil => rfl
  | cons h t ih =>
    rw [List.foldl_cons]
    by_cases h0 : 0 < h.2
    · rw [if_pos h0, ih, distributeOne_length]
    · rw [if_neg h0, ih]

theorem distributeAll_length (crf : ℚ) (lifetime : ℤ) (years : List ℤ)
    (capsClean : List ℚ) (lastYear : ℤ) :
    (distributeAll crf lifetime years capsClean lastYear).length = years.length := by
  unfold distributeAll
  rw [distributeFold_length, List.length_replicate]

theorem length_yearsOf (records : List (Option ℤ × Option ℚ)) :
    (yearsOf records).length = (sortedOf records).length := List.length_map ..

theorem length_annualizedOf (crf : ℚ) (lifetime : ℤ)
    (records : List (Option ℤ × Option ℚ)) :
    (annualizedOf crf lifetime records).length = (sortedOf records).length := by
  unfold annualizedOf
  split
  · rw [List.length_replicate, length_yearsOf]
  · rw [List.length_map, distributeAll_length, length_yearsOf]

/-- Elements of the write-back fold's result come from the initial list or
from the written values. -/
theorem mem_foldl_set {α : Type} (pairs : List (ℕ × α)) (init : List α)
    (x : α) (hx : x ∈ pairs.foldl (fun acc pv => acc.set pv.1 pv.2) init) :
    x ∈ init ∨ x ∈ pairs.map Prod.snd := by
  induction pairs generalizing init with
  | nil => exact Or.inl hx
  | cons hd tl ih =>
    rw [List.foldl_cons] at hx
    rcases ih _ hx with h | h
    · rcases List.mem_or_eq_of_mem_set h with h' | h'
      · exact Or.inl h'
      · exact Or.inr (by simp [h'])
    · exact Or.inr (List.mem_cons_of_mem _ h)

/-! ### Claims C10 and C3 -/

/-- Claim C10: a record whose YEAR is null is excluded from payment
distribution and its value in the new column is 0.0; and when additionally
every capital value in the group is null, every record with a non-null YEAR
receives null while the null-YEAR record still receives 0.0. -/
theorem processGroup_null_year_zero (crf : ℚ) (lifetime : ℤ)
    (records : List (Option ℤ × Option ℚ)) (p : ℕ) (c : Option ℚ)
    (hp : records[p]? = some (none, c)) :
    (processGroup crf lifetime records)[p]? = some (some 0) ∧
    ((∀ r ∈ records, r.2 = none) →
      ∀ (q : ℕ) (y : ℤ) (c' : Option ℚ), records[q]? = some (some y, c') →
        (processGroup crf lifetime records)[q]? = some (none : Option ℚ)) := by
  constructor
  · have hplen : p < records.length := (List.getElem?_eq_some_iff.mp hp).1
    have hnot : p ∉ (sortedOf records).map Prod.fst := by
      rw [mem_fst_sortedOf]
      rintro ⟨r, hr, hsome⟩
      rw [hp] at hr
      obtain rfl : (none, c) = r := Option.some.inj hr
      simp at hsome
    have hnotpairs : p ∉
        (((sortedOf records).map Prod.fst).zip
          (annualizedOf crf lifetime records)).map Prod.fst := by
      intro hmem
      rcases List.mem_map.mp hmem with ⟨⟨a, b⟩, hpr, rfl⟩
      exact hnot (List.of_mem_zip hpr).1
    unfold processGroup
    rw [foldl_set_not_mem _ _ _ hnotpairs, List.getElem?_replicate, if_pos hplen]
  · intro hall q y c' hq
    have hqlen : q < records.length := (List.getElem?_eq_some_iff.mp hq).1
    have hmem_s : q ∈ (sortedOf records).map Prod.fst :=
      mem_fst_sortedOf.mpr ⟨(some y, c'), hq, rfl⟩
    have hcaps : ((capsOf records).all (fun c => c.isNone)) = true := by
      rw [List.all_eq_true]
      intro o ho
      rcases List.mem_map.mp ho with ⟨pr, hpr, rfl⟩
      have hrm : pr.2 ∈ records :=
        List.getElem?_mem (mem_validOf.mp (mem_sortedOf.mp hpr)).1
      rw [hall pr.2 hrm]
      rfl
    have hann : annualizedOf crf lifetime records =
        List.replicate (yearsOf records).length none := by
      unfold annualizedOf
      rw [if_pos hcaps]
    have hlen_eq : ((sortedOf records).map Prod.fst).length =
        (annualizedOf crf lifetime records).length := by
      rw [length_annualizedOf, List.length_map]
    unfold processGroup
    apply foldl_set_const
    · rintro ⟨a, b⟩ hpr
      have hb := (List.of_mem_zip hpr).2
      rw [hann] at hb
      exact List.eq_of_mem_replicate hb
    · rw [List.map_fst_zip _ _ (le_of_eq hlen_eq)]
      exact hmem_s
    · rw [List.length_replicate]
      exact hqlen

/-- Witness for C10 on `recsNullBoth` at position 0. -/
theorem processGroup_null_year_zero_witness :
    recsNullBoth[0]? = some (none, none) ∧
    ((processGroup 1 15 recsNullBoth)[0]? = some (some 0) ∧
     ((∀ r ∈ recsNullBoth, r.2 = none) →
       ∀ (q : ℕ) (y : ℤ) (c' : Option ℚ), recsNullBoth[q]? = some (some y, c') →
         (processGroup 1 15 recsNullBoth)[q]? = some (none : Option ℚ))) :=
  ⟨by decide, processGroup_null_year_zero 1 15 recsNullBoth 0 none (by decide)⟩

/-- Claim C3, amended to groups in which every record has a non-null YEAR
(the counterexample `processGroup_missingness_counterexample` forces the
restriction): if every capital value in the group is null, every output is
null; if at least one is numeric, every output is numeric. -/
theorem processGroup_missingness_propagation (crf : ℚ) (lifetime : ℤ)
    (records : List (Option ℤ × Option ℚ))
    (hall : ∀ r ∈ records, r.1.isSome) :
    ((∀ r ∈ records, r.2 = none) →
      processGroup crf lifetime records = List.replicate records.length none) ∧
    ((∃ r ∈ records, r.2.isSome) →
      ∀ o ∈ processGroup crf lifetime records, o.isSome) := by
  constructor
  · intro hnone
    have hcaps : ((capsOf records).all (fun c => c.isNone)) = true := by
      rw [List.all_eq_true]
      intro o ho
      rcases List.mem_map.mp ho with ⟨pr, hpr, rfl⟩
      have hrm : pr.2 ∈ records :=
        List.getElem?_mem (mem_validOf.mp (mem_sortedOf.mp hpr)).1
      rw [hnone pr.2 hrm]
      rfl
    have hann : annualizedOf crf lifetime records =
        List.replicate (yearsOf records).length none := by
      unfold annualizedOf
      rw [if_pos hcaps]
    have hlen_eq : ((sortedOf records).map Prod.fst).length =
        (annualizedOf crf lifetime records).length := by
      rw [length_annualizedOf, List.length_map]
    apply List.ext_getElem?
    intro n
    by_cases hn : n < records.length
    · rw [List.getElem?_replicate, if_pos hn]
      have hr : ∃ r, records[n]? = some r ∧ r.1.isSome :=
        ⟨records[n], List.getElem?_eq_getElem hn, hall _ (List.getElem_mem hn)⟩
      unfold processGroup
      apply foldl_set_const
      · rintro ⟨a, b⟩ hpr
        have hb := (List.of_mem_zip hpr).2
        rw [hann] at hb
        exact List.eq_of_mem_replicate hb
      · rw [List.map_fst_zip _ _ (le_of_eq hlen_eq)]
        exact mem_fst_sortedOf.mpr hr
      · rw [List.length_replicate]
        exact hn
    · have h1 : (processGroup crf lifetime records).length = records.length := by
        unfold processGroup
        rw [foldl_set_length, List.length_replicate]
      rw [List.getElem?_eq_none (by rw [h1]; omega),
        List.getElem?_eq_none (by rw [List.length_replicate]; omega)]
  · intro hsome o ho
    rcases hsome with ⟨r, hrm, hrs⟩
    have hcaps : ((capsOf records).all (fun c => c.isNone)) = false := by
      rcases List.mem_iff_getElem?.mp hrm with ⟨i, hi⟩
      have hmem_v : (i, r) ∈ validOf records :=
        mem_validOf.mpr ⟨hi, hall r hrm⟩
      have hmem_c : r.2 ∈ capsOf records :=
        List.mem_map.mpr ⟨(i, r), mem_sortedOf.mpr hmem_v, rfl⟩
      rcases Bool.eq_false_or_eq_true ((capsOf records).all (fun c => c.isNone))
        with h | h
      · rw [List.all_eq_true] at h
        have := h r.2 hmem_c
        rw [Option.isNone_iff_eq_none] at this
        rw [this] at hrs
        simp at hrs
      · exact h
    have hann : annualizedOf crf lifetime records =
        (distributeAll crf lifetime (yearsOf records)
          ((capsOf records).map (fun c => c.getD 0))
          ((yearsOf records).getLastD 0)).map some := by
      unfold annualizedOf
      rw [hcaps]
      simp
    rcases mem_foldl_set _ _ _ ho with h | h
    · rw [List.eq_of_mem_replicate h]
      rfl
    · rcases List.mem_map.mp h with ⟨⟨a, b⟩, hpr, rfl⟩
      have hb := (List.of_mem_zip hpr).2
      rw [hann] at hb
      rcases List.mem_map.mp hb with ⟨v, _, rfl⟩
      rfl

/-- Witness for C3 on `recsAllNaN` (both YEARs present, all capitals null:
part one applies and yields an all-null output). -/
theorem processGroup_missingness_propagation_witness :
    (∀ r ∈ recsAllNaN, r.1.isSome) ∧
    (((∀ r ∈ recsAllNaN, r.2 = none) →
       processGroup 1 15 recsAllNaN = List.replicate recsAllNaN.length none) ∧
     ((∃ r ∈ recsAllNaN, r.2.isSome) →
       ∀ o ∈ processGroup 1 15 recsAllNaN, o.isSome)) :=
  ⟨by decide, processGroup_missingness_propagation 1 15 recsAllNaN (by decide)⟩

/-! ### Helper lemmas about tables -/

theorem idxOfCol_lt {t : Table} {c : String} (hc : c ∈ t.cols) :
    idxOfCol t c < t.cols.length :=
  List.findIdx_lt_length_of_exists ⟨c, hc, by simp⟩

theorem setColumn_cols (t : Table) (c : String) (vals : List Cell) :
    (setColumn t c vals).cols = if c ∈ t.cols then t.cols else t.cols ++ [c] := by
  unfold setColumn
  by_cases hc : c ∈ t.cols
  · rw [if_pos hc, if_pos hc]
  · rw [if_neg hc, if_neg hc]

theorem idxOfCol_append_self {l : List String} {c : String} (hc : c ∉ l) :
    (l ++ [c]).findIdx (fun c0 => c0 = c) = l.length := by
  rw [List.findIdx_append]
  have h1 : l.findIdx (fun c0 => c0 = c) = l.length :=
    List.findIdx_eq_length_of_false (fun x hx => by
      simp only [decide_eq_false_iff_not]
      rintro rfl
      exact hc hx)
  rw [h1, if_neg (lt_irrefl _), List.findIdx_cons]
  simp

theorem idxOfCol_append_left {l l' : List String} {c : String} (hc : c ∈ l) :
    (l ++ l').findIdx (fun c0 => c0 = c) = l.findIdx (fun c0 => c0 = c) := by
  rw [List.findIdx_append,
    if_pos (List.findIdx_lt_length_of_exists ⟨c, hc, by simp⟩)]

/-- Columns set in place: reading back the written column gives the written
values. -/
theorem zipWith_set_map_getD (i : ℕ) :
    ∀ (rows : List (List Cell)) (vals : List Cell),
      (∀ row ∈ rows, i < row.length) → vals.length = rows.length →
      (List.zipWith (fun row v => row.set i v) rows vals).map
        (fun row => row.getD i none) = vals := by
  intro rows
  induction rows with
  | nil =>
    intro vals _ hlen
    rw [List.length_nil, List.length_eq_zero] at hlen
    subst hlen
    rfl
  | cons row rest ih =>
    intro vals hwf hlen
    cases vals with
    | nil => simp at hlen
    | cons v vs =>
      rw [List.zipWith_cons_cons, List.map_cons]
      have h1 : (row.set i v).getD i none = v := by
        rw [List.getD_eq_getElem?_getD,
          List.getElem?_set_self (hwf row (List.mem_cons_self _ _))]
        rfl
      rw [h1, ih vs (fun r hr => hwf r (List.mem_cons_of_mem _ hr))
        (by simpa using hlen)]

/-- Columns appended on the right: reading back the appended column gives
the written values. -/
theorem zipWith_append_map_getD (n : ℕ) :
    ∀ (rows : List (List Cell)) (vals : List Cell),
      (∀ row ∈ rows, row.length = n) → vals.length = rows.length →
      (List.zipWith (fun row v => row ++ [v]) rows vals).map
        (fun row => row.getD n none) = vals := by
  intro rows
  induction rows with
  | nil =>
    intro vals _ hlen
    rw [List.length_nil, List.length_eq_zero] at hlen
    subst hlen
    rfl
  | cons row rest ih =>
    intro vals hwf hlen
    cases vals with
    | nil => simp at hlen
    | cons v vs =>
      rw [List.zipWith_cons_cons, List.map_cons]
      have hrow : row.length = n := hwf row (List.mem_cons_self _ _)
      have h1 : (row ++ [v]).getD n none = v := by
        rw [List.getD_eq_getElem?_getD, List.getElem?_append_right (le_of_eq hrow),
          hrow, Nat.sub_self]
        rfl
      rw [h1, ih vs (fun r hr => hwf r (List.mem_cons_of_mem _ hr))
        (by simpa using hlen)]

/-- Reading back a column just written by `setColumn`. -/
theorem getColVals_setColumn_self (t : Table) (c : String) (vals : List Cell)
    (hwf : t.Wf) (hlen : vals.length = t.rows.length) :
    getColVals (setColumn t c vals) c = vals := by
  unfold getColVals setColumn idxOfCol
  by_cases hc : c ∈ t.cols
  · rw [if_pos hc]
    exact zipWith_set_map_getD _ _ _
      (fun row hrow => by rw [hwf row hrow]; exact idxOfCol_lt hc) hlen
  · rw [if_neg hc]
    have h1 : (t.cols ++ [c]).findIdx (fun c0 => c0 = c) = t.cols.length :=
      idxOfCol_append_self hc
    rw [h1]
    exact zipWith_append_map_getD _ _ _ (fun row hrow => hwf row hrow) hlen

/-- Appending a fresh column on the right leaves reads at positions inside
the original rows unchanged. -/
theorem zipWith_append_map_getD_other (i n : ℕ) (hin : i < n) :
    ∀ (rows : List (List Cell)) (vals : List Cell),
      (∀ row ∈ rows, row.length = n) → vals.length = rows.length →
      (List.zipWith (fun row v => row ++ [v]) rows vals).map
          (fun row => row.getD i none) =
        rows.map (fun row => row.getD i none) := by
  intro rows
  induction rows with
  | nil => intro vals _ _; rfl
  | cons row rest ih =>
    intro vals hwf hlen
    cases vals with
    | nil => simp at hlen
    | cons v vs =>
      rw [List.zipWith_cons_cons, List.map_cons, List.map_cons]
      have hrow : row.length = n := hwf row (List.mem_cons_self _ _)
      have h2 : (row ++ [v]).getD i none = row.getD i none := by
        rw [List.getD_eq_getElem?_getD, List.getD_eq_getElem?_getD,
          List.getElem?_append_left (by rw [hrow]; exact hin)]
      rw [h2, ih vs (fun r hr => hwf r (List.mem_cons_of_mem _ hr))
        (by simpa using hlen)]

/-- Reading an original column after `setColumn` appended a fresh one. -/
theorem getColVals_setColumn_append_other (t : Table) (c c' : String)
    (vals : List Cell) (hwf : t.Wf) (hlen : vals.length = t.rows.length)
    (hc : c ∉ t.cols) (hc' : c' ∈ t.cols) :
    getColVals (setColumn t c vals) c' = getColVals t c' := by
  unfold getColVals setColumn idxOfCol
  rw [if_neg hc]
  have h1 : (t.cols ++ [c]).findIdx (fun c0 => c0 = c') =
      t.cols.findIdx (fun c0 => c0 = c') := idxOfCol_append_left hc'
  rw [h1]
  exact zipWith_append_map_getD_other _ _ (idxOfCol_lt hc') _ _
    (fun row hrow => hwf row hrow) hlen

theorem setColumn_rows_length (t : Table) (c : String) (vals : List Cell)
    (hlen : vals.length = t.rows.length) :
    (setColumn t c vals).rows.length = t.rows.length := by
  unfold setColumn
  by_cases hc : c ∈ t.cols
  · rw [if_pos hc]
    simp [List.length_zipWith, hlen]
  · rw [if_neg hc]
    simp [List.length_zipWith, hlen]

theorem setColumn_wf (t : Table) (c : String) (vals : List Cell)
    (hwf : t.Wf) (_hlen : vals.length = t.rows.length) :
    (setColumn t c vals).Wf := by
  unfold setColumn Table.Wf
  by_cases hc : c ∈ t.cols
  · rw [if_pos hc]
    intro row hrow
    rcases List.mem_iff_getElem?.mp hrow with ⟨n, hn⟩
    rw [List.getElem?_zipWith] at hn
    cases h1 : t.rows[n]? with
    | none => rw [h1] at hn; simp at hn
    | some r0 =>
      cases h2 : vals[n]? with
      | none => rw [h1, h2] at hn; simp at hn
      | some v0 =>
        rw [h1, h2] at hn
        simp only [Option.map_some, Option.some.injEq] at hn
        cases hn
        simp only [List.length_set]
        exact hwf r0 (List.getElem?_mem h1)
  · rw [if_neg hc]
    intro row hrow
    rcases List.mem_iff_getElem?.mp hrow with ⟨n, hn⟩
    rw [List.getElem?_zipWith] at hn
    cases h1 : t.rows[n]? with
    | none => rw [h1] at hn; simp at hn
    | some r0 =>
      cases h2 : vals[n]? with
      | none => rw [h1, h2] at hn; simp at hn
      | some v0 =>
        rw [h1, h2] at hn
        simp only [Option.map_some, Option.some.injEq] at hn
        cases hn
        simp only [List.length_append, List.length_cons, List.length_nil]
        rw [hwf r0 (List.getElem?_mem h1)]

/-! ### Claims C6 and C9 -/

/-- Claim C6, amended (the counterexample
`identify_partial_primary_counterexample` forces the second part): on tables
with at least one positive-investment row, `identify_effective_grouping_columns`
returns the canonical set itself when it is fully effective; more generally it
returns the sublist of the canonical set present among the effective columns
whenever that sublist is non-empty, and the full effective set only when no
canonical column is effective. -/
theorem identify_grouping_selection (t : Table) (potential : List String)
    (hcap : t.rows.filter (capMask t) ≠ []) :
    (primaryGrouping ⊆ effectiveColumnsOf t potential →
      identify_effective_grouping_columns t potential = primaryGrouping) ∧
    (primaryGrouping.filter
        (fun c => decide (c ∈ effectiveColumnsOf t potential)) ≠ [] →
      identify_effective_grouping_columns t potential =
        primaryGrouping.filter
          (fun c => decide (c ∈ effectiveColumnsOf t potential))) ∧
    (primaryGrouping.filter
        (fun c => decide (c ∈ effectiveColumnsOf t potential)) = [] →
      identify_effective_grouping_columns t potential =
        effectiveColumnsOf t potential) := by
  have hne : ¬ ((t.rows.filter (capMask t)).isEmpty = true) := by
    rw [List.isEmpty_iff]
    exact hcap
  refine ⟨?_, ?_, ?_⟩
  · intro hsub
    have hfil : primaryGrouping.filter
        (fun c => decide (c ∈ effectiveColumnsOf t potential)) = primaryGrouping :=
      List.filter_eq_self.mpr (fun c hc => decide_eq_true (hsub hc))
    unfold identify_effective_grouping_columns
    rw [if_neg hne]
    dsimp only
    rw [hfil, if_neg (by decide)]
  · intro hne2
    unfold identify_effective_grouping_columns
    rw [if_neg hne]
    dsimp only
    rw [if_neg (by rwa [List.isEmpty_iff])]
  · intro heq
    unfold identify_effective_grouping_columns
    rw [if_neg hne]
    dsimp only
    rw [if_pos (by rw [List.isEmpty_iff]; exact heq)]

/-- Witness for C6 on `tbl6w`, where the whole canonical set is effective. -/
theorem identify_grouping_selection_witness :
    tbl6w.rows.filter (capMask tbl6w) ≠ [] ∧
    ((primaryGrouping ⊆ effectiveColumnsOf tbl6w GROUPING_COLUMNS →
       identify_effective_grouping_columns tbl6w GROUPING_COLUMNS = primaryGrouping) ∧
     (primaryGrouping.filter
         (fun c => decide (c ∈ effectiveColumnsOf tbl6w GROUPING_COLUMNS)) ≠ [] →
       identify_effective_grouping_columns tbl6w GROUPING_COLUMNS =
         primaryGrouping.filter
           (fun c => decide (c ∈ effectiveColumnsOf tbl6w GROUPING_COLUMNS))) ∧
     (primaryGrouping.filter
         (fun c => decide (c ∈ effectiveColumnsOf tbl6w GROUPING_COLUMNS)) = [] →
       identify_effective_grouping_columns tbl6w GROUPING_COLUMNS =
         effectiveColumnsOf tbl6w GROUPING_COLUMNS)) :=
  ⟨by decide, identify_grouping_selection tbl6w GROUPING_COLUMNS (by decide)⟩

/-- Claim C9: when `identify_effective_grouping_columns` finds nothing and
none of the default columns Future/Scenario/REGION/TECHNOLOGY exist in the
table, `calculate_annualized_investment` does not fail: it returns the table
with the new column set to 0.0 on every row. -/
theorem calc_no_grouping_zero_column (t : Table) (crf : ℚ)
    (grouping_cols : List String) (hwf : t.Wf)
    (hid : identify_effective_grouping_columns t grouping_cols = [])
    (hdef : ∀ c ∈ primaryGrouping, c ∉ t.cols) :
    getColVals (calculate_annualized_investment t crf grouping_cols)
        NEW_COLUMN_NAME =
      List.replicate t.rows.length (some (Val.num 0)) := by
  have hfil : primaryGrouping.filter (fun c => decide (c ∈ t.cols)) = [] :=
    List.filter_eq_nil_iff.mpr
      (fun c hc => by simpa using hdef c hc)
  unfold calculate_annualized_investment
  dsimp only
  rw [hid, hfil]
  simp only [ite_self, List.isEmpty_nil, ite_true]
  exact getColVals_setColumn_self t NEW_COLUMN_NAME _ hwf
    (List.length_replicate ..)

/-- Witness for C9 on `tbl9`. -/
theorem calc_no_grouping_zero_column_witness :
    tbl9.Wf ∧ identify_effective_grouping_columns tbl9 GROUPING_COLUMNS = [] ∧
    (∀ c ∈ primaryGrouping, c ∉ tbl9.cols) ∧
    getColVals (calculate_annualized_investment tbl9 (1 / 2) GROUPING_COLUMNS)
        NEW_COLUMN_NAME =
      List.replicate tbl9.rows.length (some (Val.num 0)) :=
  ⟨by decide, by decide, by decide,
   calc_no_grouping_zero_column tbl9 (1 / 2) GROUPING_COLUMNS (by decide)
     (by decide) (by decide)⟩

/-! ### Frame lemmas for the per-cell write fold -/

theorem setCell_cols (t : Table) (p i : ℕ) (v : Cell) :
    (setCell t p i v).cols = t.cols := rfl

theorem setCell_rows_length (t : Table) (p i : ℕ) (v : Cell) :
    (setCell t p i v).rows.length = t.rows.length := List.length_set ..

theorem setCell_wf (t : Table) (p i : ℕ) (v : Cell) (_hi : i < t.cols.length)
    (hwf : t.Wf) : (setCell t p i v).Wf := by
  intro row hrow
  unfold setCell at hrow
  dsimp only at hrow
  by_cases hp : p < t.rows.length
  · rcases List.mem_or_eq_of_mem_set hrow with h | h
    · exact hwf row h
    · have hg : t.rows.getD p [] = t.rows[p] := by
        rw [List.getD_eq_getElem?_getD, List.getElem?_eq_getElem hp]
        rfl
      rw [h, hg, List.length_set]
      exact hwf _ (List.getElem_mem hp)
  · rw [List.set_eq_of_length_le (by omega)] at hrow
    exact hwf row hrow

theorem setCell_map_getD (t : Table) (p i : ℕ) (v : Cell) (i' : ℕ)
    (hne : i' ≠ i) :
    (setCell t p i v).rows.map (fun row => row.getD i' none) =
      t.rows.map (fun row => row.getD i' none) := by
  unfold setCell
  dsimp only
  by_cases hp : p < t.rows.length
  · rw [List.map_set]
    apply List.ext_getElem?
    intro n
    rw [List.getElem?_set]
    by_cases hpn : p = n
    · subst hpn
      rw [if_pos rfl, if_pos (by simpa using hp), List.getElem?_map,
        List.getElem?_eq_getElem hp]
      have hg : t.rows.getD p [] = t.rows[p] := by
        rw [List.getD_eq_getElem?_getD, List.getElem?_eq_getElem hp]
        rfl
      rw [hg]
      have h2 : (t.rows[p].set i v).getD i' none = t.rows[p].getD i' none := by
        rw [List.getD_eq_getElem?_getD, List.getD_eq_getElem?_getD,
          List.getElem?_set_ne (fun h => hne h.symm)]
      rw [h2]
      rfl
    · rw [if_neg hpn]
  · rw [List.set_eq_of_length_le (by omega)]

theorem applyGroupWrites_invariants (newIdx : ℕ) (pairs : List (ℕ × Cell)) :
    ∀ acc : Table,
      (applyGroupWrites newIdx acc pairs).cols = acc.cols ∧
      (applyGroupWrites newIdx acc pairs).rows.length = acc.rows.length ∧
      (newIdx < acc.cols.length → acc.Wf → (applyGroupWrites newIdx acc pairs).Wf) ∧
      (∀ i', i' ≠ newIdx →
        (applyGroupWrites newIdx acc pairs).rows.map (fun row => row.getD i' none) =
          acc.rows.map (fun row => row.getD i' none)) := by
  induction pairs with
  | nil => exact fun acc => ⟨rfl, rfl, fun _ h => h, fun _ _ => rfl⟩
  | cons hd tl ih =>
    intro acc
    have hstep : applyGroupWrites newIdx acc (hd :: tl) =
        applyGroupWrites newIdx (setCell acc hd.1 newIdx hd.2) tl := rfl
    rcases ih (setCell acc hd.1 newIdx hd.2) with ⟨h1, h2, h3, h4⟩
    refine ⟨?_, ?_, ?_, ?_⟩
    · rw [hstep, h1, setCell_cols]
    · rw [hstep, h2, setCell_rows_length]
    · intro hlt hwf
      rw [hstep]
      exact h3 (by rwa [setCell_cols]) (setCell_wf _ _ _ _ hlt hwf)
    · intro i' hi'
      rw [hstep, h4 i' hi', setCell_map_getD _ _ _ _ _ hi']

theorem foldGroups_invariants (newIdx : ℕ) (F : List ℕ → List (ℕ × Cell))
    (gs : List (List ℕ)) :
    ∀ acc : Table,
      ((gs.foldl (fun a grp => applyGroupWrites newIdx a (F grp)) acc).cols = acc.cols) ∧
      ((gs.foldl (fun a grp => applyGroupWrites newIdx a (F grp)) acc).rows.length =
        acc.rows.length) ∧
      (newIdx < acc.cols.length → acc.Wf →
        (gs.foldl (fun a grp => applyGroupWrites newIdx a (F grp)) acc).Wf) ∧
      (∀ i', i' ≠ newIdx →
        (gs.foldl (fun a grp => applyGroupWrites newIdx a (F grp)) acc).rows.map
            (fun row => row.getD i' none) =
          acc.rows.map (fun row => row.getD i' none)) := by
  induction gs with
  | nil => exact fun acc => ⟨rfl, rfl, fun _ h => h, fun _ _ => rfl⟩
  | cons g gs ih =>
    intro acc
    rcases applyGroupWrites_invariants newIdx (F g) acc with ⟨a1, a2, a3, a4⟩
    rcases ih (applyGroupWrites newIdx acc (F g)) with ⟨h1, h2, h3, h4⟩
    refine ⟨?_, ?_, ?_, ?_⟩
    · rw [List.foldl_cons, h1, a1]
    · rw [List.foldl_cons, h2, a2]
    · intro hlt hwf
      rw [List.foldl_cons]
      exact h3 (by rwa [a1]) (a3 hlt hwf)
    · intro i' hi'
      rw [List.foldl_cons, h4 i' hi', a4 i' hi']

/-- The four structural invariants of `calculate_annualized_investment`
relative to the zero-initialized copy `df0Of t`: columns, row count,
well-formedness, and every column position other than the new column's. -/
theorem calc_invariants (t : Table) (crf : ℚ) (g : List String) :
    (calculate_annualized_investment t crf g).cols = (df0Of t).cols ∧
    (calculate_annualized_investment t crf g).rows.length = (df0Of t).rows.length ∧
    (idxOfCol (df0Of t) NEW_COLUMN_NAME < (df0Of t).cols.length → (df0Of t).Wf →
      (calculate_annualized_investment t crf g).Wf) ∧
    (∀ i', i' ≠ idxOfCol (df0Of t) NEW_COLUMN_NAME →
      (calculate_annualized_investment t crf g).rows.map (fun row => row.getD i' none) =
        (df0Of t).rows.map (fun row => row.getD i' none)) := by
  unfold calculate_annualized_investment
  dsimp only
  split
  · split
    · exact ⟨rfl, rfl, fun _ h => h, fun _ _ => rfl⟩
    · exact foldGroups_invariants _ _ _ _
  · exact foldGroups_invariants _ _ _ _

theorem new_mem_df0_cols (t : Table) : NEW_COLUMN_NAME ∈ (df0Of t).cols := by
  unfold df0Of
  rw [setColumn_cols]
  split
  · assumption
  · simp

theorem df0_wf (t : Table) (hwf : t.Wf) : (df0Of t).Wf :=
  setColumn_wf t _ _ hwf (List.length_replicate ..)

theorem calc_wf (t : Table) (crf : ℚ) (g : List String) (hwf : t.Wf) :
    (calculate_annualized_investment t crf g).Wf :=
  (calc_invariants t crf g).2.2.1 (idxOfCol_lt (new_mem_df0_cols t)) (df0_wf t hwf)

/-! ### Claims C8 and C5 -/

/-- Claim C8, amended to input tables that do not already contain a column
named `CapitalInvestmentAnnualized` (the counterexample
`calc_overwrites_existing_column_counterexample` forces the restriction):
`calculate_annualized_investment` works on a copy, leaves every pre-existing
column and the row count unchanged, and appends exactly one new column. -/
theorem calc_frame_preservation (t : Table) (crf : ℚ) (g : List String)
    (hwf : t.Wf) (hnew : NEW_COLUMN_NAME ∉ t.cols) :
    (calculate_annualized_investment t crf g).cols = t.cols ++ [NEW_COLUMN_NAME] ∧
    (calculate_annualized_investment t crf g).rows.length = t.rows.length ∧
    ∀ c ∈ t.cols,
      getColVals (calculate_annualized_investment t crf g) c = getColVals t c := by
  obtain ⟨hc, hr, _, hframe⟩ := calc_invariants t crf g
  have hd0cols : (df0Of t).cols = t.cols ++ [NEW_COLUMN_NAME] := by
    unfold df0Of
    rw [setColumn_cols, if_neg hnew]
  have hd0rows : (df0Of t).rows.length = t.rows.length := by
    unfold df0Of
    exact setColumn_rows_length _ _ _ (List.length_replicate ..)
  refine ⟨by rw [hc, hd0cols], by rw [hr, hd0rows], ?_⟩
  intro c hcmem
  have hidx0 : idxOfCol (df0Of t) c = idxOfCol t c := by
    unfold idxOfCol
    rw [hd0cols]
    exact idxOfCol_append_left hcmem
  have hidxr : idxOfCol (calculate_annualized_investment t crf g) c =
      idxOfCol t c := by
    unfold idxOfCol
    rw [hc, hd0cols]
    exact idxOfCol_append_left hcmem
  have hnewidx : idxOfCol (df0Of t) NEW_COLUMN_NAME = t.cols.length := by
    unfold idxOfCol
    rw [hd0cols]
    exact idxOfCol_append_self hnew
  have hne : idxOfCol t c ≠ idxOfCol (df0Of t) NEW_COLUMN_NAME := by
    rw [hnewidx]
    exact ne_of_lt (idxOfCol_lt hcmem)
  have h1 : getColVals (calculate_annualized_investment t crf g) c =
      (calculate_annualized_investment t crf g).rows.map
        (fun row => row.getD (idxOfCol t c) none) := by
    unfold getColVals getCell
    rw [hidxr]
  have h2 : getColVals (df0Of t) c =
      (df0Of t).rows.map (fun row => row.getD (idxOfCol t c) none) := by
    unfold getColVals getCell
    rw [hidx0]
  rw [h1, hframe _ hne, ← h2]
  unfold df0Of
  exact getColVals_setColumn_append_other t _ c _ hwf (List.length_replicate ..)
    hnew hcmem

/-- Witness for C8 on `tbl4` (which has no pre-existing annualized column). -/
theorem calc_frame_preservation_witness :
    tbl4.Wf ∧ NEW_COLUMN_NAME ∉ tbl4.cols ∧
    ((calculate_annualized_investment tbl4 (1 / 2) GROUPING_COLUMNS).cols =
        tbl4.cols ++ [NEW_COLUMN_NAME] ∧
     (calculate_annualized_investment tbl4 (1 / 2) GROUPING_COLUMNS).rows.length =
        tbl4.rows.length ∧
     ∀ c ∈ tbl4.cols,
       getColVals (calculate_annualized_investment tbl4 (1 / 2) GROUPING_COLUMNS) c =
         getColVals tbl4 c) :=
  ⟨by decide, by decide,
   calc_frame_preservation tbl4 (1 / 2) GROUPING_COLUMNS (by decide) (by decide)⟩

/-- Claim C5, amended (the counterexample `rounding_skipped_counterexample`
forces the restriction to inputs showing at least one decimal place): when
the input investment column's maximum observed decimal-place count `d` is at
least 1, every numeric value of the output annualized column has at most `d`
decimal places.  When `d = 0` the rounding step is skipped and outputs may
show more decimal places than the input. -/
theorem output_decimals_bounded (r : ℚ) (L : ℤ) (g : List String) (t : Table)
    (hwf : t.Wf)
    (hd : 1 ≤ get_decimal_places (getColVals t CAPITAL_COLUMN)) :
    ∀ v : ℚ, some (Val.num v) ∈ okVals (annualize_capital_investment r L
        CAPITAL_COLUMN NEW_COLUMN_NAME g t) →
      hasAtMostDecimals (get_decimal_places (getColVals t CAPITAL_COLUMN)) v := by
  intro v hv
  unfold annualize_capital_investment at hv
  cases hcrf : calculate_crf r L with
  | error e =>
    rw [hcrf] at hv
    simp [okVals] at hv
  | ok crf =>
    rw [hcrf] at hv
    dsimp only at hv
    by_cases h1 : CAPITAL_COLUMN ∉ t.cols
    · rw [if_pos h1] at hv
      simp [okVals] at hv
    · rw [if_neg h1] at hv
      by_cases h2 : "YEAR" ∉ t.cols
      · rw [if_pos h2] at hv
        simp [okVals] at hv
      · rw [if_neg h2] at hv
        rw [if_pos (by omega :
          0 < get_decimal_places (getColVals t CAPITAL_COLUMN))] at hv
        by_cases h3 : NEW_COLUMN_NAME ∉
            (calculate_annualized_investment t crf g).cols
        · rw [if_pos h3] at hv
          simp [okVals] at hv
        · rw [if_neg h3] at hv
          have hreswf : (calculate_annualized_investment t crf g).Wf :=
            calc_wf t crf g hwf
          have hlen : ((getColVals (calculate_annualized_investment t crf g)
              NEW_COLUMN_NAME).map
                (roundCell (get_decimal_places (getColVals t CAPITAL_COLUMN)))).length =
              (calculate_annualized_investment t crf g).rows.length := by
            rw [List.length_map]
            exact List.length_map ..
          unfold okVals at hv
          dsimp only at hv
          rw [getColVals_setColumn_self _ _ _ hreswf hlen] at hv
          rcases List.mem_map.mp hv with ⟨cell, _, heq⟩
          match cell with
          | none => exact absurd heq (by simp [roundCell])
          | some (Val.str s) => exact absurd heq (by simp [roundCell])
          | some (Val.num u) =>
            have hval : v = (roundHalfEven
                (u * 10 ^ get_decimal_places (getColVals t CAPITAL_COLUMN)) : ℚ) /
                10 ^ get_decimal_places (getColVals t CAPITAL_COLUMN) := by
              simp only [roundCell, Option.some.injEq, Val.num.injEq] at heq
              exact heq.symm
            rw [hval]
            unfold hasAtMostDecimals
            rw [div_mul_cancel₀ _ (pow_ne_zero _ (by norm_num : (10 : ℚ) ≠ 0))]
            exact Rat.den_intCast _

/-- Witness for C5 on `tbl5b` (input shows one decimal place; the raw value
1/6 rounds to 0.2, which has one decimal place). -/
theorem output_decimals_bounded_witness :
    tbl5b.Wf ∧ 1 ≤ get_decimal_places (getColVals tbl5b CAPITAL_COLUMN) ∧
    ∀ v : ℚ, some (Val.num v) ∈ okVals (annualize_capital_investment 0 3
        CAPITAL_COLUMN NEW_COLUMN_NAME GROUPING_COLUMNS tbl5b) →
      hasAtMostDecimals (get_decimal_places (getColVals tbl5b CAPITAL_COLUMN)) v :=
  ⟨by decide, by decide,
   output_decimals_bounded 0 3 GROUPING_COLUMNS tbl5b (by decide) (by decide)⟩

/-! ### Claim C1: lemmas about the payment distribution -/

/-- With no duplicate write positions, a written position holds its value. -/
theorem foldl_set_nodup_mem {α : Type} (pairs : List (ℕ × α)) (init : List α)
    (p : ℕ) (v : α) (hnd : (pairs.map Prod.fst).Nodup)
    (hmem : (p, v) ∈ pairs) (hlen : p < init.length) :
    (pairs.foldl (fun acc pv => acc.set pv.1 pv.2) init)[p]? = some v := by
  induction pairs generalizing init with
  | nil => simp at hmem
  | cons hd tl ih =>
    rw [List.map_cons, List.nodup_cons] at hnd
    rw [List.foldl_cons]
    rcases List.mem_cons.mp hmem with h | h
    · subst h
      have hnotl : p ∉ tl.map Prod.fst := by simpa using hnd.1
      rw [foldl_set_not_mem _ _ _ hnotl, List.getElem?_set_self hlen]
    · exact ih _ hnd.2 h (by simpa using hlen)

theorem intRange_mem {a b y : ℤ} : y ∈ intRange a b ↔ a ≤ y ∧ y < b := by
  unfold intRange
  simp only [List.mem_map, List.mem_range]
  constructor
  · rintro ⟨k, hk, rfl⟩
    omega
  · rintro ⟨h1, h2⟩
    exact ⟨(y - a).toNat, by omega, by omega⟩

theorem intRange_nodup (a b : ℤ) : (intRange a b).Nodup := by
  unfold intRange
  refine (List.nodup_range _).map ?_
  intro k1 k2 h
  simp only at h
  omega

/-- The overwrite-style fold of `year_to_idx` keeps the last match. -/
theorem foldl_overwrite_eq_find_reverse (l : List (ℕ × ℤ)) (y : ℤ) :
    ∀ init : Option ℕ,
      l.foldl (fun acc p => if p.2 = y then some p.1 else acc) init =
        (match l.reverse.find? (fun p => p.2 = y) with
          | some pr => some pr.1
          | none => init) := by
  induction l with
  | nil => intro init; rfl
  | cons hd tl ih =>
    intro init
    rw [List.foldl_cons, ih, List.reverse_cons, List.find?_append]
    cases h : tl.reverse.find? (fun p => p.2 = y) with
    | some pr => rfl
    | none =>
      dsimp only [Option.none_or]
      rw [List.find?_singleton]
      by_cases hy : hd.2 = y
      · rw [if_pos hy, if_pos (by simpa using hy)]
      · rw [if_neg hy, if_neg (by simpa using hy)]

/-- Under distinct years, `year_to_idx` maps a year to its unique index. -/
theorem yearToIdx_eq_some_iff {years : List ℤ} (hnd : years.Nodup)
    {y : ℤ} {j : ℕ} :
    yearToIdx years y = some j ↔ years[j]? = some y := by
  unfold yearToIdx
  rw [foldl_overwrite_eq_find_reverse]
  constructor
  · intro h
    cases hf : years.enum.reverse.find? (fun p => p.2 = y) with
    | none => rw [hf] at h; simp at h
    | some pr =>
      rw [hf] at h
      have hpr1 : pr.1 = j := by simpa using h
      have hmem : pr ∈ years.enum :=
        List.mem_reverse.mp (List.mem_of_find?_eq_some hf)
      have hpy : pr.2 = y := by simpa using List.find?_some hf
      rw [← hpr1, ← hpy]
      exact List.mem_enum_iff_getElem?.mp hmem
  · intro h
    have hmem : ((j, y) : ℕ × ℤ) ∈ years.enum.reverse :=
      List.mem_reverse.mpr (List.mk_mem_enum_iff_getElem?.mpr h)
    cases hf : years.enum.reverse.find? (fun p => p.2 = y) with
    | none =>
      have := List.find?_eq_none.mp hf _ hmem
      simp at this
    | some pr =>
      have hpy : pr.2 = y := by simpa using List.find?_some hf
      have hprmem : pr ∈ years.enum :=
        List.mem_reverse.mp (List.mem_of_find?_eq_some hf)
      have h1 : years[pr.1]? = some pr.2 := List.mem_enum_iff_getElem?.mp hprmem
      have h2 : years[pr.1]? = years[j]? := by
        rw [h1, h, hpy]
      have hlt : pr.1 < years.length :=
        (List.getElem?_eq_some_iff.mp h1).1
      have : pr.1 = j := List.getElem?_inj hlt hnd h2
      simp [this]

theorem addAt_getD_self (l : List ℚ) (j : ℕ) (x : ℚ) (h : j < l.length) :
    (addAt l j x).getD j 0 = l.getD j 0 + x := by
  unfold addAt
  rw [List.getD_eq_getElem?_getD, List.getElem?_set_self h]
  rfl

theorem addAt_getD_ne (l : List ℚ) (i j : ℕ) (x : ℚ) (h : i ≠ j) :
    (addAt l i x).getD j 0 = l.getD j 0 := by
  unfold addAt
  rw [List.getD_eq_getElem?_getD, List.getElem?_set_ne h,
    List.getD_eq_getElem?_getD]

theorem getD_replicate_zero (n j : ℕ) :
    (List.replicate n (0 : ℚ)).getD j 0 = 0 := by
  rw [List.getD_eq_getElem?_getD, List.getElem?_replicate]
  split <;> rfl

/-- Pointwise effect of distributing one payment: position `j` gains the
payment once per window year that `year_to_idx` maps to `j`. -/
theorem distributeOne_getD (years : List ℤ) (payment : ℚ) :
    ∀ (window : List ℤ) (acc : List ℚ) (j : ℕ), j < acc.length →
      (distributeOne years payment window acc).getD j 0 =
        acc.getD j 0 + payment *
          (window.countP (fun py => decide (yearToIdx years py = some j)) : ℕ) := by
  intro window
  induction window with
  | nil =>
    intro acc j _
    rw [List.countP_nil]
    push_cast
    ring_nf
    rfl
  | cons py rest ih =>
    intro acc j hj
    have hstep : distributeOne years payment (py :: rest) acc =
        distributeOne years payment rest
          (match yearToIdx years py with
            | some j' => addAt acc j' payment
            | none => acc) := rfl
    rw [hstep]
    cases hyi : yearToIdx years py with
    | none =>
      have hcnt : (py :: rest).countP
          (fun py => decide (yearToIdx years py = some j)) =
          rest.countP (fun py => decide (yearToIdx years py = some j)) := by
        rw [List.countP_cons]
        simp [hyi]
      dsimp only
      rw [hcnt, ih acc j hj]
    | some j' =>
      by_cases hj' : j' = j
      · subst hj'
        have hcnt : (py :: rest).countP
            (fun py => decide (yearToIdx years py = some j')) =
            rest.countP (fun py => decide (yearToIdx years py = some j')) + 1 := by
          rw [List.countP_cons]
          simp [hyi]
        dsimp only
        rw [hcnt, ih (addAt acc j' payment) j' (by rw [addAt_length]; exact hj),
          addAt_getD_self _ _ _ hj]
        push_cast
        ring
      · have hcnt : (py :: rest).countP
            (fun py => decide (yearToIdx years py = some j)) =
            rest.countP (fun py => decide (yearToIdx years py = some j)) := by
          rw [List.countP_cons]
          simp [hyi, hj']
        dsimp only
        rw [hcnt, ih (addAt acc j' payment) j (by rw [addAt_length]; exact hj),
          addAt_getD_ne _ _ _ _ hj']

/-- Pointwise effect of the whole investment loop: linear accumulation of
each positive investment's windowed contribution. -/
theorem distributeFold_getD (crf : ℚ) (lifetime : ℤ) (years : List ℤ)
    (lastYear : ℤ) :
    ∀ (pairs : List (ℤ × ℚ)) (acc : List ℚ) (j : ℕ), j < acc.length →
      (pairs.foldl (fun acc yc =>
        if 0 < yc.2 then
          distributeOne years (yc.2 * crf)
            (intRange yc.1 (min (yc.1 + lifetime) (lastYear + 1))) acc
        else acc) acc).getD j 0 =
      acc.getD j 0 + (pairs.map (fun yc =>
        if 0 < yc.2 then
          yc.2 * crf *
            ((intRange yc.1 (min (yc.1 + lifetime) (lastYear + 1))).countP
              (fun py => decide (yearToIdx years py = some j)) : ℕ)
        else 0)).sum := by
  intro pairs
  induction pairs with
  | nil =>
    intro acc j _
    rw [List.map_nil, List.sum_nil, List.foldl_nil]
    ring
  | cons yc rest ih =>
    intro acc j hj
    rw [List.foldl_cons, List.map_cons, List.sum_cons]
    by_cases h0 : 0 < yc.2
    · rw [if_pos h0, if_pos h0,
        ih _ j (by rw [distributeOne_length]; exact hj),
        distributeOne_getD _ _ _ _ _ hj]
      ring
    · rw [if_neg h0, if_neg h0, ih acc j hj]
      ring

theorem distributeAll_getD (crf : ℚ) (lifetime : ℤ) (years : List ℤ)
    (capsClean : List ℚ) (lastYear : ℤ) (j : ℕ) (hj : j < years.length) :
    (distributeAll crf lifetime years capsClean lastYear).getD j 0 =
      ((years.zip capsClean).map (fun yc =>
        if 0 < yc.2 then
          yc.2 * crf *
            ((intRange yc.1 (min (yc.1 + lifetime) (lastYear + 1))).countP
              (fun py => decide (yearToIdx years py = some j)) : ℕ)
        else 0)).sum := by
  unfold distributeAll
  rw [distributeFold_getD _ _ _ _ _ _ _ (by rw [List.length_replicate]; exact hj),
    getD_replicate_zero, zero_add]

theorem enumFrom_filter_map_key (records : List (Option ℤ × Option ℚ)) :
    ∀ n : ℕ,
      (((records.enumFrom n).filter (fun p => p.2.1.isSome)).map
        (fun p => p.2.1.getD 0)) = records.filterMap Prod.fst := by
  induction records with
  | nil => intro n; rfl
  | cons r rest ih =>
    intro n
    cases hr : r.1 with
    | some y =>
      have h1 : (r :: rest).filterMap Prod.fst = y :: rest.filterMap Prod.fst := by
        rw [List.filterMap_cons, hr]
      rw [h1, List.enumFrom_cons, List.filter_cons]
      rw [if_pos (by dsimp only; rw [hr]; rfl)]
      rw [List.map_cons]
      dsimp only
      rw [hr, ih (n + 1)]
      rfl
    | none =>
      have h1 : (r :: rest).filterMap Prod.fst = rest.filterMap Prod.fst := by
        rw [List.filterMap_cons, hr]
      rw [h1, List.enumFrom_cons, List.filter_cons]
      rw [if_neg (by dsimp only; rw [hr]; simp)]
      exact ih (n + 1)

theorem validOf_map_key (records : List (Option ℤ × Option ℚ)) :
    (validOf records).map (fun p => p.2.1.getD 0) = records.filterMap Prod.fst :=
  enumFrom_filter_map_key records 0

theorem yearsOf_perm (records : List (Option ℤ × Option ℚ)) :
    List.Perm (yearsOf records) (records.filterMap Prod.fst) := by
  have h1 : List.Perm (yearsOf records)
      ((validOf records).map (fun p => p.2.1.getD 0)) :=
    (List.perm_insertionSort leYear (validOf records)).map _
  rw [validOf_map_key] at h1
  exact h1

theorem yearsOf_nodup {records : List (Option ℤ × Option ℚ)}
    (hnd : (records.filterMap Prod.fst).Nodup) : (yearsOf records).Nodup :=
  (yearsOf_perm records).nodup_iff.mpr hnd

theorem yearsOf_pairwise (records : List (Option ℤ × Option ℚ)) :
    (yearsOf records).Pairwise (fun a b => a ≤ b) := by
  have hs : (sortedOf records).Pairwise leYear :=
    List.sorted_insertionSort leYear (validOf records)
  exact hs.map _ (fun a b h => h)

theorem pairwise_le_getLastD :
    ∀ (l : List ℤ) (d : ℤ), l.Pairwise (fun a b => a ≤ b) →
      ∀ x ∈ l, x ≤ l.getLastD d := by
  intro l
  induction l with
  | nil => intro d _ x hx; simp at hx
  | cons a t ih =>
    intro d hp x hx
    rw [List.getLastD_cons]
    rcases List.mem_cons.mp hx with h | h
    · subst h
      rcases List.mem_cons.mp (List.getLastD_mem_cons t x) with h' | h'
      · rw [h']
      · exact (List.pairwise_cons.mp hp).1 _ h'
    · exact ih a (List.pairwise_cons.mp hp).2 x h

theorem sortedOf_fst_nodup (records : List (Option ℤ × Option ℚ)) :
    ((sortedOf records).map Prod.fst).Nodup := by
  have hperm : List.Perm ((sortedOf records).map Prod.fst)
      ((validOf records).map Prod.fst) :=
    (List.perm_insertionSort leYear (validOf records)).map _
  refine hperm.nodup_iff.mpr ?_
  have hsub : List.Sublist ((validOf records).map Prod.fst)
      (records.enum.map Prod.fst) :=
    (List.filter_sublist _).map _
  rw [List.enum_map_fst] at hsub
  exact hsub.nodup (List.nodup_range _)

theorem capsOf_not_all_none {records : List (Option ℤ × Option ℚ)}
    (hall : ∀ r ∈ records, r.1.isSome)
    (hcap : ∃ r ∈ records, r.2.isSome) :
    ((capsOf records).all (fun c => c.isNone)) = false := by
  rcases hcap with ⟨r, hrm, hrs⟩
  rcases List.mem_iff_getElem?.mp hrm with ⟨i, hi⟩
  have hmem_v : (i, r) ∈ validOf records := mem_validOf.mpr ⟨hi, hall r hrm⟩
  have hmem_c : r.2 ∈ capsOf records :=
    List.mem_map.mpr ⟨(i, r), mem_sortedOf.mpr hmem_v, rfl⟩
  rcases Bool.eq_false_or_eq_true ((capsOf records).all (fun c => c.isNone))
    with h | h
  · rw [List.all_eq_true] at h
    have := h r.2 hmem_c
    rw [Option.isNone_iff_eq_none] at this
    rw [this] at hrs
    simp at hrs
  · exact h

theorem countP_eq_ite_of_nodup {l : List ℤ} (hl : l.Nodup) (y : ℤ) :
    l.countP (fun x => decide (x = y)) = if y ∈ l then 1 else 0 := by
  induction l with
  | nil => simp
  | cons a t ih =>
    rw [List.nodup_cons] at hl
    rw [List.countP_cons]
    by_cases hay : a = y
    · subst hay
      rw [if_pos (by simp), if_pos (List.mem_cons_self _ _)]
      have h0 : t.countP (fun x => decide (x = a)) = 0 := by
        rw [List.countP_eq_zero]
        intro b hb
        simp only [decide_eq_true_eq]
        rintro rfl
        exact hl.1 hb
      rw [h0]
    · rw [if_neg (by simpa using hay), ih hl.2]
      by_cases hyt : y ∈ t
      · rw [if_pos hyt, if_pos (List.mem_cons_of_mem _ hyt)]
      · rw [if_neg hyt,
          if_neg (by rw [List.mem_cons]; rintro (h | h); exact hay h.symm; exact hyt h)]

theorem sum_filterMap_getD {α : Type} (l : List α) (g : α → Option ℚ) :
    (l.filterMap g).sum = (l.map (fun a => (g a).getD 0)).sum := by
  induction l with
  | nil => rfl
  | cons a t ih =>
    rw [List.filterMap_cons, List.map_cons, List.sum_cons]
    cases hga : g a with
    | none => rw [ih]; simp
    | some v => rw [List.sum_cons, ih]; rfl

/-- Claim C1, amended to groups with non-null pairwise-distinct years (the
counterexample `processGroup_claim_counterexample` forces both
restrictions): when not every capital value is null, the value computed at
the record with year `y` is the sum of `investment * crf` over exactly the
records with positive investment whose window `[Y, Y + L − 1]` contains `y`;
overlapping windows accumulate linearly. -/
theorem processGroup_window_sum (crf : ℚ) (lifetime : ℤ)
    (records : List (Option ℤ × Option ℚ))
    (hall : ∀ r ∈ records, r.1.isSome)
    (hnd : (records.filterMap Prod.fst).Nodup)
    (hcap : ∃ r ∈ records, r.2.isSome)
    (p : ℕ) (y : ℤ) (c : Option ℚ)
    (hp : records[p]? = some (some y, c)) :
    (processGroup crf lifetime records)[p]? =
      some (some (claimWindowSum crf lifetime records y)) := by
  have hmem_v : (p, (some y, c)) ∈ validOf records := mem_validOf.mpr ⟨hp, rfl⟩
  have hmem_s : (p, (some y, c)) ∈ sortedOf records := mem_sortedOf.mpr hmem_v
  obtain ⟨j, hj⟩ := List.mem_iff_getElem?.mp hmem_s
  have hjlt : j < (sortedOf records).length := (List.getElem?_eq_some_iff.mp hj).1
  have hplen : p < records.length := (List.getElem?_eq_some_iff.mp hp).1
  have hcaps : ((capsOf records).all (fun c => c.isNone)) = false :=
    capsOf_not_all_none hall hcap
  have hann : annualizedOf crf lifetime records =
      (distributeAll crf lifetime (yearsOf records)
        ((capsOf records).map (fun c => c.getD 0))
        ((yearsOf records).getLastD 0)).map some := by
    unfold annualizedOf
    rw [hcaps]
    simp
  have hyj : (yearsOf records)[j]? = some y := by
    unfold yearsOf
    rw [List.getElem?_map, hj]
    rfl
  have hjy : j < (yearsOf records).length := by
    rw [length_yearsOf]
    exact hjlt
  have hjv : j < (distributeAll crf lifetime (yearsOf records)
      ((capsOf records).map (fun c => c.getD 0))
      ((yearsOf records).getLastD 0)).length := by
    rw [distributeAll_length]
    exact hjy
  have hann_j : (annualizedOf crf lifetime records)[j]? =
      some (some ((distributeAll crf lifetime (yearsOf records)
        ((capsOf records).map (fun c => c.getD 0))
        ((yearsOf records).getLastD 0)).getD j 0)) := by
    rw [hann, List.getElem?_map, List.getElem?_eq_getElem hjv]
    have hgd : (distributeAll crf lifetime (yearsOf records)
        ((capsOf records).map (fun c => c.getD 0))
        ((yearsOf records).getLastD 0)).getD j 0 =
        (distributeAll crf lifetime (yearsOf records)
          ((capsOf records).map (fun c => c.getD 0))
          ((yearsOf records).getLastD 0))[j] := by
      rw [List.getD_eq_getElem?_getD, List.getElem?_eq_getElem hjv]
      rfl
    rw [hgd]
    rfl
  have hpair : (((sortedOf records).map Prod.fst).zip
      (annualizedOf crf lifetime records))[j]? =
      some (p, some ((distributeAll crf lifetime (yearsOf records)
        ((capsOf records).map (fun c => c.getD 0))
        ((yearsOf records).getLastD 0)).getD j 0)) := by
    rw [List.getElem?_zip_eq_some]
    constructor
    · rw [List.getElem?_map, hj]
      rfl
    · exact hann_j
  have hndp : ((((sortedOf records).map Prod.fst).zip
      (annualizedOf crf lifetime records)).map Prod.fst).Nodup := by
    have hlenfa : ((sortedOf records).map Prod.fst).length ≤
        (annualizedOf crf lifetime records).length := by
      rw [length_annualizedOf, List.length_map]
    rw [List.map_fst_zip _ _ hlenfa]
    exact sortedOf_fst_nodup records
  unfold processGroup
  rw [foldl_set_nodup_mem _ _ _ _ hndp (List.getElem?_mem hpair)
    (by rw [List.length_replicate]; exact hplen)]
  have hsum : (distributeAll crf lifetime (yearsOf records)
      ((capsOf records).map (fun c => c.getD 0))
      ((yearsOf records).getLastD 0)).getD j 0 =
      claimWindowSum crf lifetime records y := by
    rw [distributeAll_getD _ _ _ _ _ j hjy]
    have hzip : (yearsOf records).zip ((capsOf records).map (fun c => c.getD 0)) =
        (sortedOf records).map (fun pr => (pr.2.1.getD 0, pr.2.2.getD 0)) := by
      unfold yearsOf capsOf
      rw [List.map_map, List.zip_map']
      rfl
    rw [hzip, List.map_map]
    have hylast : y ≤ (yearsOf records).getLastD 0 :=
      pairwise_le_getLastD _ 0 (yearsOf_pairwise records) y (List.getElem?_mem hyj)
    have hndyears : (yearsOf records).Nodup := yearsOf_nodup hnd
    have hcount : ∀ Y : ℤ,
        ((intRange Y (min (Y + lifetime) ((yearsOf records).getLastD 0 + 1))).countP
          (fun py => decide (yearToIdx (yearsOf records) py = some j))) =
        if Y ≤ y ∧ y < Y + lifetime then 1 else 0 := by
      intro Y
      have hpred : ∀ py ∈ intRange Y (min (Y + lifetime)
          ((yearsOf records).getLastD 0 + 1)),
          (decide (yearToIdx (yearsOf records) py = some j) = true) ↔
            (decide (py = y) = true) := by
        intro py _
        simp only [decide_eq_true_eq]
        rw [yearToIdx_eq_some_iff hndyears, hyj]
        constructor
        · intro h
          exact (Option.some.inj h).symm
        · rintro rfl
          rfl
      rw [List.countP_congr hpred, countP_eq_ite_of_nodup (intRange_nodup _ _) y]
      by_cases hc : Y ≤ y ∧ y < Y + lifetime
      · rw [if_pos hc,
          if_pos (intRange_mem.mpr ⟨hc.1, lt_min_iff.mpr ⟨hc.2, by omega⟩⟩)]
      · rw [if_neg hc, if_neg (fun hm => hc ⟨(intRange_mem.mp hm).1,
          (lt_min_iff.mp (intRange_mem.mp hm).2).1⟩)]
    have hmapeq : (sortedOf records).map
        ((fun yc : ℤ × ℚ =>
          if 0 < yc.2 then
            yc.2 * crf *
              ((intRange yc.1 (min (yc.1 + lifetime)
                ((yearsOf records).getLastD 0 + 1))).countP
                (fun py => decide (yearToIdx (yearsOf records) py = some j)) : ℕ)
          else 0) ∘ (fun pr => (pr.2.1.getD 0, pr.2.2.getD 0))) =
        (sortedOf records).map (fun pr =>
          if 0 < pr.2.2.getD 0 ∧ pr.2.1.getD 0 ≤ y ∧ y < pr.2.1.getD 0 + lifetime
          then pr.2.2.getD 0 * crf else 0) := by
      apply List.map_congr_left
      intro pr _
      dsimp only [Function.comp]
      rw [hcount (pr.2.1.getD 0)]
      by_cases h1 : 0 < pr.2.2.getD 0
      · by_cases h2 : pr.2.1.getD 0 ≤ y ∧ y < pr.2.1.getD 0 + lifetime
        · rw [if_pos h1, if_pos h2, if_pos ⟨h1, h2⟩]
          push_cast
          ring
        · rw [if_pos h1, if_neg h2, if_neg (fun hc => h2 ⟨hc.2.1, hc.2.2⟩)]
          push_cast
          ring
      · rw [if_neg h1, if_neg (fun hc => h1 hc.1)]
    rw [hmapeq]
    have hperm : List.Perm
        ((sortedOf records).map (fun pr =>
          if 0 < pr.2.2.getD 0 ∧ pr.2.1.getD 0 ≤ y ∧ y < pr.2.1.getD 0 + lifetime
          then pr.2.2.getD 0 * crf else 0))
        ((validOf records).map (fun pr =>
          if 0 < pr.2.2.getD 0 ∧ pr.2.1.getD 0 ≤ y ∧ y < pr.2.1.getD 0 + lifetime
          then pr.2.2.getD 0 * crf else 0)) :=
      (List.perm_insertionSort leYear (validOf records)).map _
    rw [hperm.sum_eq]
    have hvalid_eq : validOf records = records.enum := by
      unfold validOf
      rw [List.filter_eq_self]
      intro pr hpr
      exact hall pr.2 (List.getElem?_mem (List.mem_enum_iff_getElem?.mp hpr))
    rw [hvalid_eq]
    have henum : records.enum.map (fun pr =>
        if 0 < pr.2.2.getD 0 ∧ pr.2.1.getD 0 ≤ y ∧ y < pr.2.1.getD 0 + lifetime
        then pr.2.2.getD 0 * crf else 0) =
        records.map (fun r =>
          if 0 < r.2.getD 0 ∧ r.1.getD 0 ≤ y ∧ y < r.1.getD 0 + lifetime
          then r.2.getD 0 * crf else 0) := by
      rw [show (fun pr : ℕ × (Option ℤ × Option ℚ) =>
          if 0 < pr.2.2.getD 0 ∧ pr.2.1.getD 0 ≤ y ∧ y < pr.2.1.getD 0 + lifetime
          then pr.2.2.getD 0 * crf else 0) =
        ((fun r : Option ℤ × Option ℚ =>
          if 0 < r.2.getD 0 ∧ r.1.getD 0 ≤ y ∧ y < r.1.getD 0 + lifetime
          then r.2.getD 0 * crf else 0) ∘ Prod.snd) from rfl,
        ← List.map_map, List.enum_map_snd]
    rw [henum]
    unfold claimWindowSum
    rw [sum_filterMap_getD]
    apply congrArg List.sum
    apply List.map_congr_left
    intro r hr
    match r, hall r hr with
    | (some Y, some v), _ =>
      dsimp only
      by_cases hc : 0 < v ∧ Y ≤ y ∧ y < Y + lifetime
      · rw [if_pos ⟨hc.1, hc.2.1, hc.2.2⟩, if_pos hc]
        rfl
      · rw [if_neg (fun hcc => hc ⟨hcc.1, hcc.2.1, hcc.2.2⟩), if_neg hc]
        rfl
    | (some Y, none), _ =>
      dsimp only
      rw [if_neg (fun hcc => lt_irrefl 0 hcc.1)]
      rfl
  rw [hsum]

/-- Witness for C1 on `recsMain` at the year-2021 record: the single
in-window investment (2 at 2020, window 2020–2021) contributes 2·crf = 1. -/
theorem processGroup_window_sum_witness :
    (∀ r ∈ recsMain, r.1.isSome) ∧ (recsMain.filterMap Prod.fst).Nodup ∧
    (∃ r ∈ recsMain, r.2.isSome) ∧ recsMain[1]? = some (some 2021, none) ∧
    (processGroup (1 / 2) 2 recsMain)[1]? =
      some (some (claimWindowSum (1 / 2) 2 recsMain 2021)) :=
  ⟨by decide, by decide, by decide, by decide,
   processGroup_window_sum (1 / 2) 2 recsMain (by decide) (by decide)
     (by decide) 1 2021 none (by decide)⟩

end CapitalAnnualization
